import Mathlib

/-!
Shallow embedding of the race-replay core of `src/sketch_car_position/sketch.js`:
the minisector gap engine (`recomputeGapsSFandMinisectors`), the geometric gate
crossing detector inside `draw`, and the freeze/classification step inside
`drawLeaderboard`.  Times and coordinates are rationals; JS objects keyed by
driver number become functions from `String`, with `Option` marking absent keys.
-/

namespace F1Replay

/-- A tagged gap value: `{type:'leader'}`, `{type:'time', gapSec}` or `{type:'na'}`. -/
inductive GapVal where
  | leader
  | time (gapSec : ℚ)
  | na
deriving DecidableEq, Repr

/-- Sentinel used by the code for "never crossed a minisector" recency (`-1e99`). -/
def NEG_SENTINEL : ℚ := -(10 ^ 99)

/-- State read and written by `recomputeGapsSFandMinisectors` (sketch.js:745-807).
`drivers` is the key set of the `lapCounts` object; maps absent keys are `none`. -/
structure GapState where
  drivers : List String
  revealed : String → Bool
  baselinedAtGreen : Bool
  baselineMiniAtGreen : String → ℕ
  miniCounts : String → ℕ
  lastMiniCrossSec : String → Option ℚ
  lastBoardAbsSec : ℚ
  miniSeqTimes : String → List ℚ
  lastStableGaps : String → Option GapVal
  lastStableGapsAhead : String → Option GapVal
  gapsToLeader : String → Option GapVal
  gapsToAhead : String → Option GapVal
  currentLeader : Option String

/-- One candidate entry built in the loop at sketch.js:747-754. -/
structure Cand where
  dn : String
  rawMini : ℤ
  timeSince : ℚ
deriving DecidableEq, Repr

/-- `{ dn, rawMini: max(0, miniCounts-base), timeSince: isFinite? board-last : -1e99 }`. -/
def candOf (s : GapState) (dn : String) : Cand :=
  let base : ℤ := if s.baselinedAtGreen then (s.baselineMiniAtGreen dn : ℤ) else 0
  let raw : ℤ := max 0 ((s.miniCounts dn : ℤ) - base)
  let since : ℚ :=
    match s.lastMiniCrossSec dn with
    | some t => s.lastBoardAbsSec - t
    | none => NEG_SENTINEL
  ⟨dn, raw, since⟩

/-- The candidate list: all revealed drivers (sketch.js:746-754). -/
def cands (s : GapState) : List Cand :=
  (s.drivers.filter fun dn => s.revealed dn).map (candOf s)

/-- The sort comparator of sketch.js:770: `a` may come before `b` iff `a` has
strictly more minisectors, or equally many and at least as recent activity. -/
def candLE (a b : Cand) : Prop :=
  b.rawMini < a.rawMini ∨ (a.rawMini = b.rawMini ∧ b.timeSince ≤ a.timeSince)

instance : DecidableRel candLE := fun a b => by
  unfold candLE; infer_instance

instance : IsTotal Cand candLE := by
  constructor
  intro a b
  rcases lt_trichotomy a.rawMini b.rawMini with h | h | h
  · exact Or.inr (Or.inl h)
  · rcases le_total b.timeSince a.timeSince with h2 | h2
    · exact Or.inl (Or.inr ⟨h, h2⟩)
    · exact Or.inr (Or.inr ⟨h.symm, h2⟩)
  · exact Or.inl (Or.inl h)

instance : IsTrans Cand candLE := by
  constructor
  rintro a b c (h1 | ⟨h1, h1'⟩) (h2 | ⟨h2, h2'⟩)
  · exact Or.inl (h2.trans h1)
  · exact Or.inl (h2 ▸ h1)
  · exact Or.inl (h1 ▸ h2)
  · exact Or.inr ⟨h1.trans h2, h2'.trans h1'⟩

/-- The sorted candidate list (sketch.js:770). -/
def rankedCands (s : GapState) : List Cand :=
  List.insertionSort candLE (cands s)

/-- `order`: driver numbers in ranking order (sketch.js:771). -/
def rankOrder (s : GapState) : List String :=
  (rankedCands s).map Cand.dn

/-- `gL.type==='leader' ? {type:'na'} : gL` with `undefined` giving `na`
(sketch.js:761-764 and the `fb` fallbacks at 783, 787, 794, 798). -/
def demoteL : Option GapVal → GapVal
  | some (GapVal.time g) => GapVal.time g
  | _ => GapVal.na

/-- Gap-to-leader value for one driver (sketch.js:782-788). -/
def gapLeaderVal (s : GapState) (leader dn : String) : GapVal :=
  if dn = leader then GapVal.leader
  else
    let seq := s.miniSeqTimes dn
    if seq = [] then demoteL (s.lastStableGaps dn)
    else
      let idx := seq.length - 1
      let tD := seq.getLastD 0
      let leaderSeq := s.miniSeqTimes leader
      if idx < leaderSeq.length then GapVal.time (max 0 (tD - leaderSeq.getD idx 0))
      else demoteL (s.lastStableGaps dn)

/-- Gap-to-ahead value for one non-first driver (sketch.js:792-800). -/
def gapAheadVal (s : GapState) (aheadDn dn : String) : GapVal :=
  let seq := s.miniSeqTimes dn
  if seq = [] then demoteL (s.lastStableGapsAhead dn)
  else
    let idx := seq.length - 1
    let tD := seq.getLastD 0
    let seqAhead := s.miniSeqTimes aheadDn
    if idx < seqAhead.length then GapVal.time (max 0 (tD - seqAhead.getD idx 0))
    else demoteL (s.lastStableGapsAhead dn)

/-- The empty-candidate branch of the recompute (sketch.js:758-767): rebuild
both maps over all drivers from the stable caches, demoting leader tags, clear
the leader and return before touching the caches. -/
def recomputeEmpty (s : GapState) : GapState :=
  { s with
    gapsToLeader := fun dn =>
      if dn ∈ s.drivers then some (demoteL (s.lastStableGaps dn)) else none
    gapsToAhead := fun dn =>
      if dn ∈ s.drivers then some (demoteL (s.lastStableGapsAhead dn)) else none
    currentLeader := none }

/-- The new gap-to-leader map of the main branch (sketch.js:781-788): an entry
for every ranked driver, the head of the order tagged as leader. -/
def gapsToLeaderNew (s : GapState) (dn : String) : Option GapVal :=
  if dn ∈ rankOrder s then
    some (gapLeaderVal s ((rankOrder s).headD "") dn)
  else none

/-- The new gap-to-ahead map of the main branch (sketch.js:790-800): rank 0 is
tagged leader, rank `i` compares against the driver at rank `i-1`. -/
def gapsToAheadNew (s : GapState) (dn : String) : Option GapVal :=
  if dn ∈ rankOrder s then
    some (if (rankOrder s).indexOf dn = 0 then GapVal.leader
          else gapAheadVal s
            ((rankOrder s).getD ((rankOrder s).indexOf dn - 1) "") dn)
  else none

/-- The main branch of the recompute (sketch.js:769-806): commit the new maps,
record the leader, and refresh both stability caches (a leader tag is
normalized to `Time 0` in the leader cache and to `na` in the ahead cache). -/
def recomputeNonempty (s : GapState) : GapState :=
  { s with
    gapsToLeader := gapsToLeaderNew s
    gapsToAhead := gapsToAheadNew s
    currentLeader := some ((rankOrder s).headD "")
    lastStableGaps := fun dn =>
      match gapsToLeaderNew s dn with
      | some g => some (if g = GapVal.leader then GapVal.time 0 else g)
      | none => s.lastStableGaps dn
    lastStableGapsAhead := fun dn =>
      match gapsToAheadNew s dn with
      | some g => some (if g = GapVal.leader then GapVal.na else g)
      | none => s.lastStableGapsAhead dn }

/-- `recomputeGapsSFandMinisectors` (sketch.js:745-807). -/
def recomputeGapsSFandMinisectors (s : GapState) : GapState :=
  if (cands s).isEmpty then recomputeEmpty s else recomputeNonempty s

/-- The spec's ranking key, in its words: `rawProgress = miniSectorCount −
miniSectorBaseline` (baseline 0 if not yet captured), without the code's
clamp at zero. -/
def specProgress (s : GapState) (dn : String) : ℤ :=
  (s.miniCounts dn : ℤ) -
    (if s.baselinedAtGreen then (s.baselineMiniAtGreen dn : ℤ) else 0)

/-- The spec's recency key, in its words: `boardAbsTime −
lastMiniSectorCrossTime`, or `−∞` if the entity never crossed a minisector
(the code uses the sentinel `-1e99` instead of `−∞`). -/
def specRecency (s : GapState) (dn : String) : WithBot ℚ :=
  match s.lastMiniCrossSec dn with
  | some t => ((s.lastBoardAbsSec - t : ℚ) : WithBot ℚ)
  | none => ⊥

/-- The spec's ranking order: descending progress, ties by descending
recency. -/
def specRankLE (s : GapState) (a b : String) : Prop :=
  specProgress s b < specProgress s a ∨
  (specProgress s a = specProgress s b ∧ specRecency s b ≤ specRecency s a)

/-! Geometry and gate crossing detection (sketch.js draw loop, lines 1156-1260). -/

/-- A 2-D point (screen space). -/
structure Pt where
  x : ℚ
  y : ℚ
deriving DecidableEq, Repr

/-- Precomputed gate base: anchor `(px,py)`, tangent `(tx,ty)`, normal `(nx,ny)`
(sketch.js:1086-1106). -/
structure GateBase where
  px : ℚ
  py : ℚ
  tx : ℚ
  ty : ℚ
  nx : ℚ
  ny : ℚ
deriving DecidableEq, Repr

/-- `GATE_HALF_LEN` (sketch.js:333). -/
def GATE_HALF_LEN : ℚ := 24

/-- `MIN_CROSSING_INTERVAL_SEC` (sketch.js:337). -/
def MIN_CROSSING_INTERVAL_SEC : ℚ := 4

/-- `LAP_COUNT_START_DELAY_SEC` (sketch.js:341). -/
def LAP_COUNT_START_DELAY_SEC : ℚ := 1

/-- `FINAL_LAP` (sketch.js:122). -/
def FINAL_LAP : ℕ := 72

/-- Signed distance of `p` to the gate's infinite line along its normal:
`(p - anchor)·normal` (sketch.js:1191-1192). -/
def signedDistN (g : GateBase) (p : Pt) : ℚ :=
  (p.x - g.px) * g.nx + (p.y - g.py) * g.ny

/-- Zero-crossing fraction `r = d0/(d0-d1)` (sketch.js:1195, 1229). -/
def crossFrac (d0 d1 : ℚ) : ℚ := d0 / (d0 - d1)

/-- Pit-gate fraction: guarded by `|d0-d1| > 1e-6`, else `0.5` (sketch.js:1169-1170). -/
def pitCrossFrac (d0 d1 : ℚ) : ℚ :=
  if 1 / 1000000 < |d0 - d1| then d0 / (d0 - d1) else 1 / 2

/-- Interpolated point `prev + (curr - prev)·r` (sketch.js:1196-1197). -/
def interpPt (prev curr : Pt) (r : ℚ) : Pt :=
  ⟨prev.x + (curr.x - prev.x) * r, prev.y + (curr.y - prev.y) * r⟩

/-- Tangential offset `u` of `p` from the gate anchor (sketch.js:1198). -/
def tangAt (g : GateBase) (p : Pt) : ℚ :=
  (p.x - g.px) * g.tx + (p.y - g.py) * g.ty

/-- The JS read `(v || -Infinity)`: `undefined` and `0` are both falsy, so a
stored `0` behaves like `-Infinity` (sketch.js:1174, 1200, 1234). -/
def jsOrNegInf : Option ℚ → Option ℚ
  | some t => if t = 0 then none else some t
  | none => none

/-- Debounce test `(now - last) >= MIN_CROSSING_INTERVAL_SEC`, where a missing
(or falsy) last value compares as `-Infinity` and always passes. -/
def debounceOK (last : Option ℚ) (now : ℚ) : Bool :=
  match jsOrNegInf last with
  | none => true
  | some t => decide (MIN_CROSSING_INTERVAL_SEC ≤ now - t)

/-- Full acceptance test for a forward (minisector / start-finish) gate:
sign flip negative → non-negative, tangential offset within half length, and
debounce (sketch.js:1191-1201). -/
def fwdGateAccept (g : GateBase) (prev curr : Pt) (carAbs : ℚ)
    (lastCross : Option ℚ) : Bool :=
  let d0 := signedDistN g prev
  let d1 := signedDistN g curr
  if d0 < 0 ∧ 0 ≤ d1 then
    let r := crossFrac d0 d1
    let u := tangAt g (interpPt prev curr r)
    if |u| ≤ GATE_HALF_LEN then debounceOK lastCross carAbs else false
  else false

/-- Per-entity ledger state touched by the detection block of `draw`. -/
structure EntityState where
  miniCount : ℕ
  lastMiniCrossSec : Option ℚ
  revealed : Bool
  pitOverlay : Bool
  miniSeq : List ℚ
  lastByGate : ℕ → Option ℚ
  lapCount : ℕ
  lapTimes : List ℚ
  lastCrossSec : Option ℚ
  lastPitEntryCrossSec : Option ℚ
  frozen : Bool

/-- One minisector gate test and its side effects (sketch.js:1189-1221):
on acceptance, increment `miniCounts`, record recency, reveal, clear the pit
overlay; after green also append the time to `miniSeqTimes`; finally stamp the
per-gate debounce time. -/
def miniGateStep (g : GateBase) (gi : ℕ) (prev curr : Pt) (carAbs : ℚ)
    (afterGreen : Bool) (st : EntityState) : EntityState :=
  if fwdGateAccept g prev curr carAbs (st.lastByGate gi) then
    let st1 := { st with
      miniCount := st.miniCount + 1
      lastMiniCrossSec := some carAbs
      revealed := true
      pitOverlay := false }
    let st2 := if afterGreen then { st1 with miniSeq := st1.miniSeq ++ [carAbs] } else st1
    { st2 with lastByGate := fun j => if j = gi then some carAbs else st.lastByGate j }
  else st

/-- The loop over all minisector gates (sketch.js:1189). -/
def miniAllStep (gates : List GateBase) (prev curr : Pt) (carAbs : ℚ)
    (afterGreen : Bool) (st : EntityState) : EntityState :=
  gates.enum.foldl (fun acc p => miniGateStep p.2 p.1 prev curr carAbs afterGreen acc) st

/-- Start/finish crossing (sketch.js:1225-1239): evaluated only `afterGreen`;
on acceptance increments `lapCounts`, appends to `lapTimes`, stamps `lastCrossSec`.
(The race-finish flags it also sets are global and modelled with the board.) -/
def sfStep (sfBase : Option GateBase) (prev curr : Pt) (carAbs : ℚ)
    (afterGreen : Bool) (st : EntityState) : EntityState :=
  match sfBase with
  | none => st
  | some g =>
    if afterGreen then
      if fwdGateAccept g prev curr carAbs st.lastCrossSec then
        { st with
          lapCount := st.lapCount + 1
          lapTimes := st.lapTimes ++ [carAbs]
          lastCrossSec := some carAbs }
      else st
    else st

/-- Pit-entry crossing (sketch.js:1164-1180): either-direction sign flip, the
guarded fraction, tangential test, debounce; sets the pit overlay. Skipped for
frozen drivers. -/
def pitStep (pitBase : Option GateBase) (prev curr : Pt) (carAbs : ℚ)
    (st : EntityState) : EntityState :=
  match pitBase with
  | none => st
  | some g =>
    if st.frozen then st
    else
      let d0 := signedDistN g prev
      let d1 := signedDistN g curr
      if (d0 < 0 ∧ 0 ≤ d1) ∨ (0 < d0 ∧ d1 ≤ 0) then
        let r := pitCrossFrac d0 d1
        let u := tangAt g (interpPt prev curr r)
        if |u| ≤ GATE_HALF_LEN then
          if debounceOK st.lastPitEntryCrossSec carAbs then
            { st with pitOverlay := true, lastPitEntryCrossSec := some carAbs }
          else st
        else st
      else st

/-- One entity's full detection pass for one tick (sketch.js:1156-1261):
suspended unless at least `LAP_COUNT_START_DELAY_SEC` of the car timeline has
elapsed, a previous position exists, and playback speed is positive; then pit,
minisector and start/finish detection run in source order. -/
def entityTick (gates : List GateBase) (sfBase pitBase : Option GateBase)
    (prev : Option Pt) (curr : Pt) (carAbs carStart playbackSpeed : ℚ)
    (afterGreen : Bool) (st : EntityState) : EntityState :=
  match prev with
  | none => st
  | some p =>
    if LAP_COUNT_START_DELAY_SEC ≤ carAbs - carStart ∧ 0 < playbackSpeed then
      let st1 := pitStep pitBase p curr carAbs st
      let st2 := miniAllStep gates p curr carAbs afterGreen st1
      sfStep sfBase p curr carAbs afterGreen st2
    else st

/-! Leaderboard freeze logic (drawLeaderboard, sketch.js:1471-1521). -/

/-- `numericLap` (sketch.js:638): pit-starters are offset by one lap; lap 0
displays as lap 1. -/
def numericLap (c : ℕ) (pitStart : Bool) : ℕ :=
  if pitStart then (if c = 0 then 1 else c + 1) else (if c = 0 then 1 else c)

/-- State read and written by the freeze-commit section of `drawLeaderboard`.
`rows` is the sorted list of revealed drivers (position of `dn` is
`rows.indexOf dn + 1`); `frozen` models the `frozenDrivers` set and
`freezePending` the key set of the `freezePending` object. -/
structure BoardState where
  rows : List String
  lapCounts : String → ℕ
  pitStart : String → Bool
  dnfActive : String → Bool
  frozen : List String
  freezePos : String → Option ℕ
  freezePending : List String
  pitOverlay : String → Bool

/-- The marking loop (sketch.js:1498-1503): a row is marked pending when its
numeric lap reached `FINAL_LAP`, or — hard-coded special case — when it is
driver `'4'`, its DNF overlay is active and it currently sits at position 20. -/
def freezeMark (b : BoardState) : List String :=
  b.freezePending ++ b.rows.filter (fun dn =>
    (decide (FINAL_LAP ≤ numericLap (b.lapCounts dn) (b.pitStart dn)) && !(b.frozen.contains dn))
    || (dn == "4" && b.dnfActive "4" && (b.rows.indexOf "4" + 1 == 20) && !(b.frozen.contains "4")))

/-- One commit of a pending driver (sketch.js:1505-1507): add to `frozenDrivers`,
record the current row position as the frozen position (when a row exists), and
force-clear the pit overlay. -/
def commitOne (rows : List String) (st : BoardState) (dn : String) : BoardState :=
  if dn ∈ st.frozen then st
  else
    { st with
      frozen := dn :: st.frozen
      freezePos := fun k =>
        if k = dn then (if dn ∈ rows then some (rows.indexOf dn + 1) else st.freezePos dn)
        else st.freezePos k
      pitOverlay := fun k => if k = dn then false else st.pitOverlay k }

/-- The freeze section of one `drawLeaderboard` tick (sketch.js:1496-1508):
mark pending rows, then commit every pending driver not yet frozen. -/
def boardFreezeStep (b : BoardState) : BoardState :=
  let pending := freezeMark b
  pending.foldl (commitOne b.rows) { b with freezePending := pending }

/-- The spec's acceptance condition for a forward gate, stated in its words:
the signed normal distance flips from negative to non-negative, the
interpolated intersection point at fraction `r = d0/(d0-d1)` lies within
`halfLength` of the anchor along the tangent, and at least
`MIN_CROSSING_INTERVAL` simulation seconds have elapsed since the entity's
last accepted crossing of the same gate. -/
def specCrossCondition (g : GateBase) (prev curr : Pt) (carAbs : ℚ)
    (last : Option ℚ) : Prop :=
  signedDistN g prev < 0 ∧ 0 ≤ signedDistN g curr ∧
  |tangAt g (interpPt prev curr
      (crossFrac (signedDistN g prev) (signedDistN g curr)))| ≤ GATE_HALF_LEN ∧
  ∀ t, last = some t → MIN_CROSSING_INTERVAL_SEC ≤ carAbs - t

/-- Example gate for concrete evaluations: anchor `(10,0)`, tangent `(0,1)`,
normal `(1,0)`. -/
def gateEx : GateBase := ⟨10, 0, 0, 1, 1, 0⟩

/-- A second example gate one unit downstream of `gateEx`. -/
def gateEx2 : GateBase := ⟨11, 0, 0, 1, 1, 0⟩

/-- Example entity ledger: one prior crossing of gate 3 at `t = 10`. -/
def entEx : EntityState :=
  ⟨1, some 10, true, false, [10], fun j => if j = 3 then some 10 else none,
   0, [], none, none, false⟩

/-- Example entity ledger with a clean per-gate debounce map and one earlier
minisector sequence entry at `t = 50`. -/
def entEx2 : EntityState :=
  ⟨3, some 50, true, false, [50], fun _ => none, 0, [], none, none, false⟩

/-- Example board: driver `"7"` already frozen at position 3. -/
def boardExFrozen : BoardState :=
  ⟨["1", "2", "7"], fun _ => 0, fun _ => false, fun _ => false, ["7"],
   fun dn => if dn = "7" then some 3 else none, [], fun _ => false⟩

/-- Example board: driver `"5"` has an active DNF overlay and is classified
last (position 3 of 3), nobody frozen or pending. -/
def boardExDnf : BoardState :=
  ⟨["1", "2", "5"], fun _ => 0, fun _ => false, fun dn => dn == "5", [],
   fun _ => none, [], fun _ => false⟩

/-- Example board with 20 rows where driver `"4"` sits at position 20 with an
active DNF overlay. -/
def boardEx4 : BoardState :=
  ⟨["1", "2", "3", "5", "6", "7", "8", "9", "10", "11", "12", "13", "14",
    "15", "16", "17", "18", "19", "20", "4"],
   fun _ => 0, fun _ => false, fun dn => dn == "4", [],
   fun _ => none, [], fun _ => false⟩

/-- Example gap state for the spec's scenario: `A` and `B` both revealed, two
minisectors each; `A`'s sequence is `[10, 22]`, `B`'s is `[10.5, 22.6]`, the
board clock reads 23. -/
def sAB : GapState :=
  ⟨["A", "B"], fun _ => true, true, fun _ => 0, fun _ => 2,
   fun dn => if dn = "A" then some 22 else some (113 / 5), 23,
   fun dn => if dn = "A" then [10, 22] else [21 / 2, 113 / 5],
   fun _ => some GapVal.na, fun _ => some GapVal.na,
   fun _ => none, fun _ => none, none⟩

/-- Example gap state with no revealed driver but a prior stable time gap of
5 s recorded for `"A"`. -/
def sEmpty : GapState :=
  ⟨["A"], fun _ => false, false, fun _ => 0, fun _ => 0, fun _ => none, 0,
   fun _ => [], fun _ => some (GapVal.time 5), fun _ => some GapVal.na,
   fun _ => none, fun _ => none, none⟩

/-! Theorems. -/

/-- C10: every zero-crossing fraction is well defined and lies in `[0,1]`.
For minisector and start/finish gates, the branch `d0 < 0 ∧ d1 ≥ 0` makes the
denominator `d0 - d1` strictly negative and `r = d0/(d0-d1) ∈ [0,1]`; the
pit-entry gate accepts either-direction flips and additionally substitutes
`r = 0.5` when `|d0-d1| ≤ 1e-6`, so its fraction lies in `[0,1]` as well. -/
theorem zero_crossing_fraction_safe :
    ∀ d0 d1 : ℚ,
      (d0 < 0 → 0 ≤ d1 →
        d0 - d1 < 0 ∧ 0 ≤ crossFrac d0 d1 ∧ crossFrac d0 d1 ≤ 1) ∧
      ((d0 < 0 ∧ 0 ≤ d1) ∨ (0 < d0 ∧ d1 ≤ 0) →
        0 ≤ pitCrossFrac d0 d1 ∧ pitCrossFrac d0 d1 ≤ 1) := by
  intro d0 d1
  constructor
  · intro h0 h1
    have hden : d0 - d1 < 0 := by linarith
    refine ⟨hden, ?_, ?_⟩
    · unfold crossFrac
      rw [← neg_div_neg_eq]
      exact div_nonneg (by linarith) (by linarith)
    · unfold crossFrac
      exact (div_le_one_of_neg hden).mpr (by linarith)
  · intro hcross
    unfold pitCrossFrac
    by_cases hg : 1 / 1000000 < |d0 - d1|
    · rw [if_pos hg]
      rcases hcross with ⟨h0, h1⟩ | ⟨h0, h1⟩
      · have hden : d0 - d1 < 0 := by linarith
        constructor
        · rw [← neg_div_neg_eq]
          exact div_nonneg (by linarith) (by linarith)
        · exact (div_le_one_of_neg hden).mpr (by linarith)
      · have hden : 0 < d0 - d1 := by linarith
        exact ⟨div_nonneg (by linarith) (by linarith),
          (div_le_one hden).mpr (by linarith)⟩
    · rw [if_neg hg]
      norm_num

/-- C10 witness: the bounds at the concrete flip `d0 = -1`, `d1 = 3`. -/
theorem zero_crossing_fraction_safe_witness :
    ((-1 : ℚ) - 3 < 0 ∧ 0 ≤ crossFrac (-1) 3 ∧ crossFrac (-1) 3 ≤ 1) ∧
      (0 ≤ pitCrossFrac (-1) 3 ∧ pitCrossFrac (-1) 3 ≤ 1) :=
  ⟨(zero_crossing_fraction_safe (-1) 3).1 (by norm_num) (by norm_num),
   (zero_crossing_fraction_safe (-1) 3).2 (Or.inl ⟨by norm_num, by norm_num⟩)⟩

/-- C8: while less than `LAP_COUNT_START_DELAY_SEC` (1 s) of the car timeline
has elapsed, the whole detection pass is suspended: the tick leaves the entity
ledger unchanged, so no minisector, start/finish or pit-entry crossing is
counted. -/
theorem detection_suspended_before_delay
    (gates : List GateBase) (sfBase pitBase : Option GateBase)
    (prev : Option Pt) (curr : Pt) (carAbs carStart playbackSpeed : ℚ)
    (afterGreen : Bool) (st : EntityState)
    (h : carAbs - carStart < LAP_COUNT_START_DELAY_SEC) :
    entityTick gates sfBase pitBase prev curr carAbs carStart playbackSpeed
      afterGreen st = st := by
  cases prev with
  | none => rfl
  | some p =>
    show (if LAP_COUNT_START_DELAY_SEC ≤ carAbs - carStart ∧ 0 < playbackSpeed then _ else st) = st
    rw [if_neg]
    rintro ⟨h1, -⟩
    exact absurd h (not_lt.mpr h1)

/-- C8 witness: a concrete suspended tick 0.5 s into the car timeline. -/
theorem detection_suspended_before_delay_witness :
    entityTick [] none none (some ⟨0, 0⟩) ⟨1, 1⟩ (1 / 2) 0 1 true
      ⟨0, none, false, false, [], fun _ => none, 0, [], none, none, false⟩ =
      ⟨0, none, false, false, [], fun _ => none, 0, [], none, none, false⟩ :=
  detection_suspended_before_delay [] none none (some ⟨0, 0⟩) ⟨1, 1⟩ (1 / 2) 0 1
    true _ (by norm_num [LAP_COUNT_START_DELAY_SEC])

/-- The debounce read `(last || -Infinity)` passes iff every stored value is at
least `MIN_CROSSING_INTERVAL_SEC` old — provided the stored value is not the
falsy `0`. -/
theorem debounceOK_iff (last : Option ℚ) (now : ℚ) (h : last ≠ some 0) :
    debounceOK last now = true ↔
      ∀ t, last = some t → MIN_CROSSING_INTERVAL_SEC ≤ now - t := by
  cases last with
  | none => simp [debounceOK, jsOrNegInf]
  | some t =>
    have ht : t ≠ 0 := by rintro rfl; exact h rfl
    simp [debounceOK, jsOrNegInf, ht]

/-- A forward gate accepts exactly when the spec's three conditions hold. -/
theorem fwdGateAccept_iff (g : GateBase) (prev curr : Pt) (carAbs : ℚ)
    (last : Option ℚ) (h : last ≠ some 0) :
    fwdGateAccept g prev curr carAbs last = true ↔
      specCrossCondition g prev curr carAbs last := by
  unfold fwdGateAccept specCrossCondition
  dsimp only
  split_ifs with h1 h2
  · rw [debounceOK_iff last carAbs h]
    constructor
    · intro hd; exact ⟨h1.1, h1.2, h2, hd⟩
    · rintro ⟨-, -, -, hd⟩; exact hd
  · simp only [Bool.false_eq_true, false_iff]
    rintro ⟨-, -, hu, -⟩; exact h2 hu
  · simp only [Bool.false_eq_true, false_iff]
    rintro ⟨ha, hb, -, -⟩; exact h1 ⟨ha, hb⟩

/-- An accepted minisector crossing increments the count by exactly one. -/
theorem miniGateStep_accept (g : GateBase) (gi : ℕ) (prev curr : Pt)
    (carAbs : ℚ) (afterGreen : Bool) (st : EntityState)
    (h : fwdGateAccept g prev curr carAbs (st.lastByGate gi) = true) :
    (miniGateStep g gi prev curr carAbs afterGreen st).miniCount =
      st.miniCount + 1 := by
  cases afterGreen <;> simp [miniGateStep, h]

/-- A rejected minisector crossing leaves the entity ledger untouched. -/
theorem miniGateStep_reject (g : GateBase) (gi : ℕ) (prev curr : Pt)
    (carAbs : ℚ) (afterGreen : Bool) (st : EntityState)
    (h : ¬ fwdGateAccept g prev curr carAbs (st.lastByGate gi) = true) :
    miniGateStep g gi prev curr carAbs afterGreen st = st := by
  simp [miniGateStep, h]

/-- C3: a minisector or start/finish gate crossing is counted if and only if
the signed distance flips from negative to non-negative, the interpolated
intersection lies within the gate half length, and at least 4 simulation
seconds have elapsed since the same entity's last accepted crossing of the
same gate; a crossing failing any condition is discarded and changes nothing.
(The hypotheses exclude a stored crossing time of exactly `0`, which the JS
`|| -Infinity` read treats as never-crossed.) -/
theorem crossing_counted_iff (g : GateBase) (gi : ℕ) (prev curr : Pt)
    (carAbs : ℚ) (afterGreen : Bool) (st : EntityState)
    (hmini : st.lastByGate gi ≠ some 0) (hsf : st.lastCrossSec ≠ some 0) :
    ((miniGateStep g gi prev curr carAbs afterGreen st).miniCount =
        st.miniCount + 1 ↔
      specCrossCondition g prev curr carAbs (st.lastByGate gi)) ∧
    (¬ specCrossCondition g prev curr carAbs (st.lastByGate gi) →
      miniGateStep g gi prev curr carAbs afterGreen st = st) ∧
    ((sfStep (some g) prev curr carAbs true st).lapCount = st.lapCount + 1 ↔
      specCrossCondition g prev curr carAbs st.lastCrossSec) ∧
    (¬ specCrossCondition g prev curr carAbs st.lastCrossSec →
      sfStep (some g) prev curr carAbs true st = st) := by
  have hmi := fwdGateAccept_iff g prev curr carAbs (st.lastByGate gi) hmini
  have hsi := fwdGateAccept_iff g prev curr carAbs st.lastCrossSec hsf
  refine ⟨?_, ?_, ?_, ?_⟩
  · by_cases h : fwdGateAccept g prev curr carAbs (st.lastByGate gi) = true
    · rw [miniGateStep_accept g gi prev curr carAbs afterGreen st h]
      simp only [true_iff, iff_true]
      exact hmi.mp h
    · rw [miniGateStep_reject g gi prev curr carAbs afterGreen st h]
      constructor
      · intro habs; exact absurd habs (Nat.succ_ne_self st.miniCount).symm
      · intro hc; exact absurd (hmi.mpr hc) h
  · intro hc
    exact miniGateStep_reject g gi prev curr carAbs afterGreen st
      (fun h => hc (hmi.mp h))
  · by_cases h : fwdGateAccept g prev curr carAbs st.lastCrossSec = true
    · simp only [sfStep, if_pos rfl, h, if_true]
      simp only [true_iff, iff_true]
      exact hsi.mp h
    · simp only [sfStep, h]
      constructor
      · intro habs
        simp only [if_true] at habs
        exact absurd habs (Nat.succ_ne_self st.lapCount).symm
      · intro hc; exact absurd (hsi.mpr hc) h
  · intro hc
    have h : ¬ fwdGateAccept g prev curr carAbs st.lastCrossSec = true :=
      fun h => hc (hsi.mp h)
    simp [sfStep, h]

/-- C3 witness: the debounce scenario at gate 3 — last accepted crossing at
`t = 10`, second geometric crossing at `t = 10.1` is within 4 s, so the count
does not increase. -/
theorem crossing_counted_iff_witness :
    ((miniGateStep gateEx 3 ⟨9, 0⟩ ⟨12, 0⟩ (101 / 10) true entEx).miniCount =
        entEx.miniCount + 1 ↔
      specCrossCondition gateEx ⟨9, 0⟩ ⟨12, 0⟩ (101 / 10) (entEx.lastByGate 3)) ∧
    (¬ specCrossCondition gateEx ⟨9, 0⟩ ⟨12, 0⟩ (101 / 10) (entEx.lastByGate 3) →
      miniGateStep gateEx 3 ⟨9, 0⟩ ⟨12, 0⟩ (101 / 10) true entEx = entEx) ∧
    ((sfStep (some gateEx) ⟨9, 0⟩ ⟨12, 0⟩ (101 / 10) true entEx).lapCount =
        entEx.lapCount + 1 ↔
      specCrossCondition gateEx ⟨9, 0⟩ ⟨12, 0⟩ (101 / 10) entEx.lastCrossSec) ∧
    (¬ specCrossCondition gateEx ⟨9, 0⟩ ⟨12, 0⟩ (101 / 10) entEx.lastCrossSec →
      sfStep (some gateEx) ⟨9, 0⟩ ⟨12, 0⟩ (101 / 10) true entEx = entEx) :=
  crossing_counted_iff gateEx 3 ⟨9, 0⟩ ⟨12, 0⟩ (101 / 10) true entEx
    (by decide) (by decide)

/-- A minisector gate step either leaves the sequence alone or appends the
current car-absolute time. -/
theorem miniGateStep_seq (g : GateBase) (gi : ℕ) (prev curr : Pt)
    (carAbs : ℚ) (afterGreen : Bool) (st : EntityState) :
    (miniGateStep g gi prev curr carAbs afterGreen st).miniSeq = st.miniSeq ∨
    (miniGateStep g gi prev curr carAbs afterGreen st).miniSeq =
      st.miniSeq ++ [carAbs] := by
  by_cases h : fwdGateAccept g prev curr carAbs (st.lastByGate gi) = true
  · cases afterGreen
    · exact Or.inl (by simp [miniGateStep, h])
    · exact Or.inr (by simp [miniGateStep, h])
  · exact Or.inl (by simp [miniGateStep, h])

/-- The pit step never touches the minisector sequence. -/
theorem pitStep_miniSeq (pitBase : Option GateBase) (prev curr : Pt)
    (carAbs : ℚ) (st : EntityState) :
    (pitStep pitBase prev curr carAbs st).miniSeq = st.miniSeq := by
  unfold pitStep
  cases pitBase with
  | none => rfl
  | some g => dsimp only; split_ifs <;> rfl

/-- The start/finish step never touches the minisector sequence. -/
theorem sfStep_miniSeq (sfBase : Option GateBase) (prev curr : Pt)
    (carAbs : ℚ) (afterGreen : Bool) (st : EntityState) :
    (sfStep sfBase prev curr carAbs afterGreen st).miniSeq = st.miniSeq := by
  unfold sfStep
  cases sfBase with
  | none => rfl
  | some g => dsimp only; split_ifs <;> rfl

/-- Appending the current time to a non-decreasing, bounded sequence keeps it
non-decreasing and bounded. -/
theorem chain_le_append_now (l : List ℚ) (now : ℚ)
    (h1 : List.Chain' (· ≤ ·) l) (h2 : ∀ x ∈ l, x ≤ now) :
    List.Chain' (· ≤ ·) (l ++ [now]) ∧ ∀ x ∈ l ++ [now], x ≤ now := by
  constructor
  · refine h1.append (List.chain'_singleton now) ?_
    intro x hx y hy
    rcases List.mem_getLast?_eq_getLast hx with ⟨hne, rfl⟩
    have hm := List.getLast_mem hne
    simp only [List.head?_cons, Option.mem_def, Option.some.injEq] at hy
    subst hy
    exact h2 _ hm
  · intro x hx
    rcases List.mem_append.mp hx with hx | hx
    · exact h2 x hx
    · rw [List.mem_singleton] at hx; exact le_of_eq hx

/-- The minisector loop preserves "non-decreasing and bounded by the current
time" for the crossing-time sequence. -/
theorem miniFold_nondecr (l : List (ℕ × GateBase)) (prev curr : Pt)
    (carAbs : ℚ) (afterGreen : Bool) (st : EntityState)
    (h1 : List.Chain' (· ≤ ·) st.miniSeq) (h2 : ∀ x ∈ st.miniSeq, x ≤ carAbs) :
    List.Chain' (· ≤ ·)
        ((l.foldl (fun acc p => miniGateStep p.2 p.1 prev curr carAbs afterGreen acc)
          st).miniSeq) ∧
      ∀ x ∈ (l.foldl (fun acc p => miniGateStep p.2 p.1 prev curr carAbs afterGreen acc)
          st).miniSeq, x ≤ carAbs := by
  induction l generalizing st with
  | nil => exact ⟨h1, h2⟩
  | cons hd tl ih =>
    simp only [List.foldl_cons]
    rcases miniGateStep_seq hd.2 hd.1 prev curr carAbs afterGreen st with h | h
    · exact ih _ (h ▸ h1) (h ▸ h2)
    · rcases chain_le_append_now st.miniSeq carAbs h1 h2 with ⟨c1, c2⟩
      exact ih _ (h ▸ c1) (h ▸ c2)

/-- C6 counterexample: strict increase fails.  From a fresh ledger, one tick in
which the segment `(9,0) → (12,0)` crosses the two minisector gates at `x = 10`
and `x = 11` appends the same timestamp twice, so the recorded sequence
`[100, 100]` is not strictly increasing. -/
theorem miniSeqTimes_strict_counterexample :
    (miniAllStep [gateEx, gateEx2] ⟨9, 0⟩ ⟨12, 0⟩ 100 true
        ⟨0, none, false, false, [], fun _ => none, 0, [], none, none, false⟩).miniSeq =
      [100, 100] ∧
    ¬ List.Chain' (· < ·)
        (miniAllStep [gateEx, gateEx2] ⟨9, 0⟩ ⟨12, 0⟩ 100 true
          ⟨0, none, false, false, [], fun _ => none, 0, [], none, none, false⟩).miniSeq := by
  have h : (miniAllStep [gateEx, gateEx2] ⟨9, 0⟩ ⟨12, 0⟩ 100 true
      ⟨0, none, false, false, [], fun _ => none, 0, [], none, none, false⟩).miniSeq =
      [100, 100] := by
    norm_num [miniAllStep, List.enum, List.enumFrom, miniGateStep, fwdGateAccept,
      signedDistN, crossFrac, interpPt, tangAt, debounceOK, jsOrNegInf,
      gateEx, gateEx2, GATE_HALF_LEN, MIN_CROSSING_INTERVAL_SEC]
  refine ⟨h, ?_⟩
  rw [h]
  intro hc
  exact absurd (List.chain'_cons.mp hc).1 (lt_irrefl 100)

/-- C6 (amended): `miniSeqTimes[e]` is non-decreasing rather than strictly
increasing — every appended minisector-crossing timestamp is greater than or
equal to the previous entry, and two gates crossed in the same tick record the
same timestamp.  The full detection tick preserves the invariant, assuming all
existing entries are at most the current car time. -/
theorem miniSeqTimes_nondecreasing (gates : List GateBase)
    (sfBase pitBase : Option GateBase) (prev : Option Pt) (curr : Pt)
    (carAbs carStart playbackSpeed : ℚ) (afterGreen : Bool) (st : EntityState)
    (h1 : List.Chain' (· ≤ ·) st.miniSeq)
    (h2 : ∀ x ∈ st.miniSeq, x ≤ carAbs) :
    List.Chain' (· ≤ ·)
      (entityTick gates sfBase pitBase prev curr carAbs carStart playbackSpeed
        afterGreen st).miniSeq := by
  cases prev with
  | none => exact h1
  | some p =>
    show List.Chain' (· ≤ ·)
      (if LAP_COUNT_START_DELAY_SEC ≤ carAbs - carStart ∧ 0 < playbackSpeed then _
       else st).miniSeq
    split_ifs with hg
    · rw [sfStep_miniSeq]
      refine (miniFold_nondecr gates.enum p curr carAbs afterGreen
        (pitStep pitBase p curr carAbs st) ?_ ?_).1
      · rw [pitStep_miniSeq]; exact h1
      · rw [pitStep_miniSeq]; exact h2
    · exact h1

/-- C6 witness: the amended invariant at the concrete two-gate tick, starting
from the sequence `[50]`. -/
theorem miniSeqTimes_nondecreasing_witness :
    List.Chain' (· ≤ ·)
      (entityTick [gateEx, gateEx2] none none (some ⟨9, 0⟩) ⟨12, 0⟩ 100 0 1
        true entEx2).miniSeq :=
  miniSeqTimes_nondecreasing [gateEx, gateEx2] none none (some ⟨9, 0⟩) ⟨12, 0⟩
    100 0 1 true entEx2 (by simp [entEx2]) (by norm_num [entEx2])

/-- Folding commits over any pending list never un-freezes a driver and never
rewrites an already-frozen driver's recorded position. -/
theorem commitFold_preserves (l rows : List String) (st : BoardState)
    (e : String) (he : e ∈ st.frozen) :
    e ∈ (l.foldl (commitOne rows) st).frozen ∧
    (l.foldl (commitOne rows) st).freezePos e = st.freezePos e := by
  induction l generalizing st with
  | nil => exact ⟨he, rfl⟩
  | cons a tl ih =>
    simp only [List.foldl_cons]
    by_cases ha : a ∈ st.frozen
    · have hst : commitOne rows st a = st := by rw [commitOne, if_pos ha]
      rw [hst]; exact ih st he
    · have hmem : e ∈ (commitOne rows st a).frozen := by
        rw [commitOne, if_neg ha]; exact List.mem_cons_of_mem a he
      rcases ih (commitOne rows st a) hmem with ⟨h1, h2⟩
      refine ⟨h1, ?_⟩
      rw [h2, commitOne, if_neg ha]
      have hne : e ≠ a := fun h => ha (h ▸ he)
      simp [hne]

/-- C4: freezing is terminal.  If an entity is in the frozen set before a
leaderboard tick, it is still frozen after it and its recorded final position
is unchanged — and since the freeze-commit loop is the only writer of
`frozenDrivers`/`freezePos`, this invariant holds for the rest of the session. -/
theorem frozen_terminal (b : BoardState) (e : String) (he : e ∈ b.frozen) :
    e ∈ (boardFreezeStep b).frozen ∧
    (boardFreezeStep b).freezePos e = b.freezePos e := by
  unfold boardFreezeStep
  exact commitFold_preserves (freezeMark b) b.rows _ e he

/-- C4 witness: the already-frozen driver `"7"` keeps its frozen status and
position 3 across a tick. -/
theorem frozen_terminal_witness :
    "7" ∈ (boardFreezeStep boardExFrozen).frozen ∧
    (boardFreezeStep boardExFrozen).freezePos "7" = boardExFrozen.freezePos "7" :=
  frozen_terminal boardExFrozen "7" (by decide)

/-- Folding commits freezes every pending, not-yet-frozen driver at its
current row position. -/
theorem commitFold_commits (l rows : List String) (st : BoardState)
    (dn : String) (hl : dn ∈ l) (hf : dn ∉ st.frozen) (hr : dn ∈ rows) :
    dn ∈ (l.foldl (commitOne rows) st).frozen ∧
    (l.foldl (commitOne rows) st).freezePos dn =
      some (rows.indexOf dn + 1) := by
  induction l generalizing st with
  | nil => cases hl
  | cons a tl ih =>
    simp only [List.foldl_cons]
    by_cases hadn : a = dn
    · subst hadn
      have hmem : a ∈ (commitOne rows st a).frozen := by
        rw [commitOne, if_neg hf]; exact List.mem_cons_self a st.frozen
      rcases commitFold_preserves tl rows (commitOne rows st a) a hmem with ⟨h1, h2⟩
      refine ⟨h1, ?_⟩
      rw [h2, commitOne, if_neg hf]
      simp [hr]
    · have hl' : dn ∈ tl := by
        rcases List.mem_cons.mp hl with h | h
        · exact absurd h.symm hadn
        · exact h
      by_cases ha : a ∈ st.frozen
      · have hst : commitOne rows st a = st := by rw [commitOne, if_pos ha]
        rw [hst]; exact ih st hl' hf
      · have hf' : dn ∉ (commitOne rows st a).frozen := by
          rw [commitOne, if_neg ha]
          intro h
          rcases List.mem_cons.mp h with h | h
          · exact hadn h.symm
          · exact hf h
        exact ih _ hl' hf'

/-- C9 counterexample: driver `"5"` has an active DNF overlay, is classified
last (position 3 of 3) and is not frozen, yet the leaderboard tick does not
freeze it — the immediate-freeze rule in the code fires only for the
hard-coded driver `'4'` at the hard-coded position 20. -/
theorem dnf_last_freeze_counterexample :
    boardExDnf.dnfActive "5" = true ∧
    boardExDnf.rows.indexOf "5" + 1 = boardExDnf.rows.length ∧
    "5" ∉ boardExDnf.frozen ∧
    "5" ∉ (boardFreezeStep boardExDnf).frozen := by
  refine ⟨by decide, by decide, by decide, ?_⟩
  decide

/-- C9 (amended): the immediate DNF freeze applies only to the entity with key
`'4'`, and only when its current position is exactly 20: if `'4'` is ranked,
has an active DNF overlay, sits at position 20 and is not yet frozen, that
tick freezes it with final position 20. -/
theorem dnf_driver4_immediate_freeze (b : BoardState)
    (h4 : "4" ∈ b.rows) (hd : b.dnfActive "4" = true)
    (hp : b.rows.indexOf "4" + 1 = 20) (hf : "4" ∉ b.frozen) :
    "4" ∈ (boardFreezeStep b).frozen ∧
    (boardFreezeStep b).freezePos "4" = some 20 := by
  have hmark : "4" ∈ freezeMark b := by
    unfold freezeMark
    refine List.mem_append_right _ ?_
    refine List.mem_filter.mpr ⟨h4, ?_⟩
    simp [hd, hp, hf, List.elem_eq_mem]
  unfold boardFreezeStep
  have h := commitFold_commits (freezeMark b) b.rows
    { b with freezePending := freezeMark b } "4" hmark hf h4
  rw [hp] at h
  exact h

/-- C9 witness: on the concrete 20-row board, the DNF-flagged driver `"4"` at
position 20 is frozen with final position 20. -/
theorem dnf_driver4_immediate_freeze_witness :
    "4" ∈ (boardFreezeStep boardEx4).frozen ∧
    (boardFreezeStep boardEx4).freezePos "4" = some 20 :=
  dnf_driver4_immediate_freeze boardEx4 (by decide) (by decide) (by decide)
    (by decide)

/-- With no candidates the recompute takes its degraded branch. -/
theorem recompute_eq_empty (s : GapState) (h : cands s = []) :
    recomputeGapsSFandMinisectors s = recomputeEmpty s := by
  unfold recomputeGapsSFandMinisectors
  rw [h]
  rfl

/-- With candidates present the recompute takes its main branch. -/
theorem recompute_eq_nonempty (s : GapState) (h : cands s ≠ []) :
    recomputeGapsSFandMinisectors s = recomputeNonempty s := by
  unfold recomputeGapsSFandMinisectors
  cases hc : cands s with
  | nil => exact absurd hc h
  | cons a l => rfl

/-- The demote helper never produces a leader tag. -/
theorem demoteL_ne_leader (o : Option GapVal) : demoteL o ≠ GapVal.leader := by
  cases o with
  | none => exact fun h => GapVal.noConfusion h
  | some g => cases g <;> exact fun h => GapVal.noConfusion h

/-- The demote helper is the identity on non-leader values. -/
theorem demoteL_some_of_ne (g : GapVal) (h : g ≠ GapVal.leader) :
    demoteL (some g) = g := by
  cases g with
  | leader => exact absurd rfl h
  | time t => rfl
  | na => rfl

/-- Only the leader itself receives the leader tag from `gapLeaderVal`. -/
theorem gapLeaderVal_eq_leader (s : GapState) (L dn : String)
    (h : gapLeaderVal s L dn = GapVal.leader) : dn = L := by
  unfold gapLeaderVal at h
  by_cases h1 : dn = L
  · exact h1
  · exfalso
    rw [if_neg h1] at h
    dsimp only at h
    by_cases h2 : s.miniSeqTimes dn = []
    · rw [if_pos h2] at h
      exact demoteL_ne_leader _ h
    · rw [if_neg h2] at h
      by_cases h3 : (s.miniSeqTimes dn).length - 1 < (s.miniSeqTimes L).length
      · rw [if_pos h3] at h
        exact GapVal.noConfusion h
      · rw [if_neg h3] at h
        exact demoteL_ne_leader _ h

/-- The gap-to-ahead value of a non-first driver is never a leader tag. -/
theorem gapAheadVal_ne_leader (s : GapState) (aheadDn dn : String) :
    gapAheadVal s aheadDn dn ≠ GapVal.leader := by
  unfold gapAheadVal
  dsimp only
  split_ifs with h1 h2
  · exact demoteL_ne_leader _
  · exact fun h => GapVal.noConfusion h
  · exact demoteL_ne_leader _

/-- C1: at most one entity carries the `Leader` tag after a recompute;
exactly one does whenever the candidate set of revealed entities is
non-empty; and with an empty candidate set no entity carries it — a prior
stable `Time` gap is preserved and a prior stable leader tag is demoted to
`Unavailable`. -/
theorem leader_tag_exactly_one (s : GapState) :
    (∀ d1 d2,
      (recomputeGapsSFandMinisectors s).gapsToLeader d1 = some GapVal.leader →
      (recomputeGapsSFandMinisectors s).gapsToLeader d2 = some GapVal.leader →
      d1 = d2) ∧
    (cands s ≠ [] → ∃ dn,
      (recomputeGapsSFandMinisectors s).gapsToLeader dn = some GapVal.leader) ∧
    (cands s = [] →
      (∀ dn,
        (recomputeGapsSFandMinisectors s).gapsToLeader dn ≠ some GapVal.leader) ∧
      (∀ dn ∈ s.drivers, ∀ g : ℚ, s.lastStableGaps dn = some (GapVal.time g) →
        (recomputeGapsSFandMinisectors s).gapsToLeader dn =
          some (GapVal.time g)) ∧
      (∀ dn ∈ s.drivers, s.lastStableGaps dn = some GapVal.leader →
        (recomputeGapsSFandMinisectors s).gapsToLeader dn = some GapVal.na)) := by
  refine ⟨?_, ?_, ?_⟩
  · intro d1 d2 h1 h2
    by_cases hc : cands s = []
    · rw [recompute_eq_empty s hc] at h1
      exfalso
      dsimp only [recomputeEmpty] at h1
      by_cases hd : d1 ∈ s.drivers
      · rw [if_pos hd] at h1
        exact demoteL_ne_leader _ (Option.some.inj h1)
      · rw [if_neg hd] at h1
        exact Option.noConfusion h1
    · rw [recompute_eq_nonempty s hc] at h1 h2
      dsimp only [recomputeNonempty] at h1 h2
      have key : ∀ d, gapsToLeaderNew s d = some GapVal.leader →
          d = (rankOrder s).headD "" := by
        intro d hd
        unfold gapsToLeaderNew at hd
        by_cases hm : d ∈ rankOrder s
        · rw [if_pos hm] at hd
          exact gapLeaderVal_eq_leader s _ d (Option.some.inj hd)
        · rw [if_neg hm] at hd
          exact Option.noConfusion hd
      rw [key d1 h1, key d2 h2]
  · intro hc
    rw [recompute_eq_nonempty s hc]
    dsimp only [recomputeNonempty]
    have hord : rankOrder s ≠ [] := by
      intro h0
      apply hc
      have hlen := (List.perm_insertionSort candLE (cands s)).length_eq
      unfold rankOrder rankedCands at h0
      rw [List.map_eq_nil_iff] at h0
      rw [h0] at hlen
      exact List.length_eq_zero.mp hlen.symm
    refine ⟨(rankOrder s).headD "", ?_⟩
    unfold gapsToLeaderNew
    have hm : (rankOrder s).headD "" ∈ rankOrder s := by
      cases ho : rankOrder s with
      | nil => exact absurd ho hord
      | cons a l => exact List.mem_cons_self a l
    rw [if_pos hm]
    unfold gapLeaderVal
    rw [if_pos rfl]
  · intro hc
    rw [recompute_eq_empty s hc]
    dsimp only [recomputeEmpty]
    refine ⟨?_, ?_, ?_⟩
    · intro dn h
      by_cases hd : dn ∈ s.drivers
      · rw [if_pos hd] at h
        exact demoteL_ne_leader _ (Option.some.inj h)
      · rw [if_neg hd] at h
        exact Option.noConfusion h
    · intro dn hd g hg
      rw [if_pos hd, hg]
      rfl
    · intro dn hd hg
      rw [if_pos hd, hg]
      rfl

/-- C1 witness: with `A` and `B` revealed some entity carries the tag, and in
the empty state the prior stable 5-second gap of `"A"` is preserved. -/
theorem leader_tag_exactly_one_witness :
    (∃ dn, (recomputeGapsSFandMinisectors sAB).gapsToLeader dn =
      some GapVal.leader) ∧
    (recomputeGapsSFandMinisectors sEmpty).gapsToLeader "A" =
      some (GapVal.time 5) :=
  ⟨(leader_tag_exactly_one sAB).2.1 (by simp [cands, sAB]),
   ((leader_tag_exactly_one sEmpty).2.2 (by simp [cands, sEmpty])).2.1 "A"
     (by simp [sEmpty]) 5 rfl⟩

/-- C2: for a ranked non-leader entity with a non-empty minisector sequence,
if the leader's sequence has a timestamp at the entity's latest index the
recomputed gap-to-leader is `Time(max 0 (entityTime − leaderTime))` — hence
never negative; if the leader has no timestamp at that index, a last known
stable `Time` gap is kept instead of flipping to `Unavailable`. -/
theorem gap_to_leader_formula (s : GapState) (dn L : String)
    (hne : cands s ≠ [])
    (hL : (recomputeGapsSFandMinisectors s).currentLeader = some L)
    (hmem : dn ∈ rankOrder s) (hdn : dn ≠ L)
    (hseq : s.miniSeqTimes dn ≠ []) :
    ((s.miniSeqTimes dn).length - 1 < (s.miniSeqTimes L).length →
      (recomputeGapsSFandMinisectors s).gapsToLeader dn =
        some (GapVal.time (max 0 ((s.miniSeqTimes dn).getLastD 0 -
          (s.miniSeqTimes L).getD ((s.miniSeqTimes dn).length - 1) 0))) ∧
      (0 : ℚ) ≤ max 0 ((s.miniSeqTimes dn).getLastD 0 -
          (s.miniSeqTimes L).getD ((s.miniSeqTimes dn).length - 1) 0)) ∧
    (¬ (s.miniSeqTimes dn).length - 1 < (s.miniSeqTimes L).length →
      ∀ g : ℚ, s.lastStableGaps dn = some (GapVal.time g) →
        (recomputeGapsSFandMinisectors s).gapsToLeader dn =
          some (GapVal.time g)) := by
  rw [recompute_eq_nonempty s hne] at hL ⊢
  dsimp only [recomputeNonempty] at hL ⊢
  have hLeq : L = (rankOrder s).headD "" := (Option.some.inj hL).symm
  subst hLeq
  have hmap : gapsToLeaderNew s dn =
      some (gapLeaderVal s ((rankOrder s).headD "") dn) := by
    unfold gapsToLeaderNew
    rw [if_pos hmem]
  constructor
  · intro hlen
    constructor
    · rw [hmap]
      unfold gapLeaderVal
      rw [if_neg hdn]
      dsimp only
      rw [if_neg hseq, if_pos hlen]
    · exact le_max_left 0 _
  · intro hlen g hg
    rw [hmap]
    unfold gapLeaderVal
    rw [if_neg hdn]
    dsimp only
    rw [if_neg hseq, if_neg hlen, hg]
    rfl

/-- The concrete ranking of the scenario state: `A` leads, `B` follows. -/
theorem rankOrder_sAB : rankOrder sAB = ["A", "B"] := by
  have hBA : ("B" : String) ≠ "A" := by decide
  norm_num [rankOrder, rankedCands, cands, sAB, candOf, candLE, NEG_SENTINEL,
    List.insertionSort, List.orderedInsert, hBA]

/-- C2 witness: in the spec's scenario (`A = [10, 22]`, `B = [10.5, 22.6]`,
`A` leads), `B`'s recomputed gap at index 1 is `Time(22.6 − 22) = 0.6` s. -/
theorem gap_to_leader_formula_witness :
    (recomputeGapsSFandMinisectors sAB).gapsToLeader "B" =
      some (GapVal.time (max 0 ((sAB.miniSeqTimes "B").getLastD 0 -
        (sAB.miniSeqTimes "A").getD ((sAB.miniSeqTimes "B").length - 1) 0))) ∧
    max (0 : ℚ) ((sAB.miniSeqTimes "B").getLastD 0 -
        (sAB.miniSeqTimes "A").getD ((sAB.miniSeqTimes "B").length - 1) 0) =
      3 / 5 := by
  have hne : cands sAB ≠ [] := by simp [cands, sAB]
  have hL : (recomputeGapsSFandMinisectors sAB).currentLeader = some "A" := by
    rw [recompute_eq_nonempty sAB hne]
    dsimp only [recomputeNonempty]
    rw [rankOrder_sAB]
    rfl
  have hBA : ("B" : String) ≠ "A" := by decide
  refine ⟨((gap_to_leader_formula sAB "B" "A" hne hL ?_ ?_ ?_).1 ?_).1, ?_⟩
  · rw [rankOrder_sAB]; simp
  · decide
  · simp [sAB]
  · simp [sAB]
  · norm_num [sAB, hBA]

/-- Under the real-state hypotheses, a candidate's clamped progress equals the
spec's unclamped `miniSectorCount − miniSectorBaseline`. -/
theorem candOf_rawMini_eq_spec (s : GapState) (dn : String)
    (_hdn : dn ∈ s.drivers)
    (hbase : s.baselinedAtGreen = true →
      s.baselineMiniAtGreen dn ≤ s.miniCounts dn) :
    (candOf s dn).rawMini = specProgress s dn := by
  unfold candOf specProgress
  dsimp only
  cases hb : s.baselinedAtGreen with
  | false =>
    simp only [Bool.false_eq_true, if_false, sub_zero]
    exact max_eq_right (Int.natCast_nonneg _)
  | true =>
    simp only [eq_self_iff_true, if_true]
    exact max_eq_right (sub_nonneg.mpr (Int.ofNat_le.mpr (hbase hb)))

/-- Under the sentinel hypothesis, the code's `-1e99` ordering of recencies
implies the spec's `−∞`-based ordering. -/
theorem timeSince_le_to_specRecency (s : GapState) (a b : String)
    (hsb : ∀ t, s.lastMiniCrossSec b = some t →
      NEG_SENTINEL < s.lastBoardAbsSec - t)
    (hle : (candOf s b).timeSince ≤ (candOf s a).timeSince) :
    specRecency s b ≤ specRecency s a := by
  unfold candOf at hle
  dsimp only at hle
  unfold specRecency
  cases hmb : s.lastMiniCrossSec b with
  | none => exact bot_le
  | some tb =>
    rw [hmb] at hle
    cases hma : s.lastMiniCrossSec a with
    | none =>
      rw [hma] at hle
      exact absurd (lt_of_lt_of_le (hsb tb hmb) hle) (lt_irrefl _)
    | some ta =>
      rw [hma] at hle
      exact WithBot.coe_le_coe.mpr hle

/-- C5: the ranking is exactly the revealed entities ordered by the spec's
comparator — descending `rawProgress = miniSectorCount − miniSectorBaseline`
(baseline 0 if not captured), ties by descending recency with `−∞` for
never-crossed — and its first entity is the current leader.  The hypotheses
state the session invariants the code maintains: the baseline never exceeds
the count, and every real recency is above the `-1e99` sentinel. -/
theorem ranking_follows_spec (s : GapState)
    (hbase : ∀ dn ∈ s.drivers, s.baselinedAtGreen = true →
      s.baselineMiniAtGreen dn ≤ s.miniCounts dn)
    (hsent : ∀ dn ∈ s.drivers, ∀ t, s.lastMiniCrossSec dn = some t →
      NEG_SENTINEL < s.lastBoardAbsSec - t) :
    (rankOrder s).Pairwise (specRankLE s) ∧
    (rankOrder s).Perm (s.drivers.filter fun dn => s.revealed dn) ∧
    (cands s ≠ [] →
      (recomputeGapsSFandMinisectors s).currentLeader = (rankOrder s).head?) := by
  have hsorted : List.Pairwise candLE (rankedCands s) :=
    List.sorted_insertionSort candLE (cands s)
  have hperm : List.Perm (rankedCands s) (cands s) :=
    List.perm_insertionSort candLE (cands s)
  have hmem : ∀ c ∈ rankedCands s,
      ∃ dn ∈ s.drivers, s.revealed dn = true ∧ c = candOf s dn := by
    intro c hc
    have hc2 : c ∈ cands s := hperm.mem_iff.mp hc
    unfold cands at hc2
    rcases List.mem_map.mp hc2 with ⟨dn, hdn, rfl⟩
    rcases List.mem_filter.mp hdn with ⟨hd, hrev⟩
    exact ⟨dn, hd, hrev, rfl⟩
  refine ⟨?_, ?_, ?_⟩
  · unfold rankOrder
    rw [List.pairwise_map]
    refine hsorted.imp_of_mem ?_
    intro a b ha hb hab
    rcases hmem a ha with ⟨da, hda, -, rfl⟩
    rcases hmem b hb with ⟨db, hdb, -, rfl⟩
    show specRankLE s da db
    rcases hab with h | ⟨heq, hle⟩
    · exact Or.inl (by
        rw [← candOf_rawMini_eq_spec s da hda (hbase da hda),
          ← candOf_rawMini_eq_spec s db hdb (hbase db hdb)]
        exact h)
    · refine Or.inr ⟨?_, ?_⟩
      · rw [← candOf_rawMini_eq_spec s da hda (hbase da hda),
          ← candOf_rawMini_eq_spec s db hdb (hbase db hdb)]
        exact heq
      · exact timeSince_le_to_specRecency s da db (hsent db hdb) hle
  · have h3 : (cands s).map Cand.dn =
        s.drivers.filter fun dn => s.revealed dn := by
      unfold cands
      rw [List.map_map]
      exact List.map_id'' (fun x => rfl) _
    exact h3 ▸ hperm.map Cand.dn
  · intro hc
    rw [recompute_eq_nonempty s hc]
    dsimp only [recomputeNonempty]
    cases ho : rankOrder s with
    | nil =>
      exfalso
      apply hc
      have hlen := hperm.length_eq
      unfold rankOrder at ho
      rw [List.map_eq_nil_iff] at ho
      rw [ho] at hlen
      exact List.length_eq_zero.mp hlen.symm
    | cons a l =>
      rfl

/-- C5 witness: the spec scenario's ranking is sorted by the spec comparator,
is a permutation of the revealed drivers, and its head `A` is the leader. -/
theorem ranking_follows_spec_witness :
    (rankOrder sAB).Pairwise (specRankLE sAB) ∧
    (rankOrder sAB).Perm (sAB.drivers.filter fun dn => sAB.revealed dn) ∧
    (recomputeGapsSFandMinisectors sAB).currentLeader =
      (rankOrder sAB).head? := by
  have hb : ∀ dn ∈ sAB.drivers, sAB.baselinedAtGreen = true →
      sAB.baselineMiniAtGreen dn ≤ sAB.miniCounts dn := by
    intro dn _ _
    norm_num [sAB]
  have hs : ∀ dn ∈ sAB.drivers, ∀ t, sAB.lastMiniCrossSec dn = some t →
      NEG_SENTINEL < sAB.lastBoardAbsSec - t := by
    intro dn _ t ht
    by_cases hA : dn = "A"
    · simp [sAB, hA] at ht
      subst ht
      norm_num [sAB, NEG_SENTINEL]
    · simp [sAB, hA] at ht
      subst ht
      norm_num [sAB, NEG_SENTINEL]
  have h := ranking_follows_spec sAB hb hs
  exact ⟨h.1, h.2.1, h.2.2 (by simp [cands, sAB])⟩

/-- The main branch does not touch the minisector sequences. -/
theorem recomputeNonempty_miniSeqTimes (s : GapState) :
    (recomputeNonempty s).miniSeqTimes = s.miniSeqTimes := rfl

/-- The refreshed leader cache after the main branch. -/
theorem recomputeNonempty_lastStableGaps (s : GapState) :
    (recomputeNonempty s).lastStableGaps = fun dn =>
      match gapsToLeaderNew s dn with
      | some g => some (if g = GapVal.leader then GapVal.time 0 else g)
      | none => s.lastStableGaps dn := rfl

/-- The refreshed ahead cache after the main branch. -/
theorem recomputeNonempty_lastStableGapsAhead (s : GapState) :
    (recomputeNonempty s).lastStableGapsAhead = fun dn =>
      match gapsToAheadNew s dn with
      | some g => some (if g = GapVal.leader then GapVal.na else g)
      | none => s.lastStableGapsAhead dn := rfl

/-- Demoting the refreshed leader cache of a ranked non-leader driver gives
back exactly its freshly committed gap value. -/
theorem demoteL_cache_idem (s : GapState) (dn : String)
    (hm : dn ∈ rankOrder s)
    (hne : gapLeaderVal s ((rankOrder s).headD "") dn ≠ GapVal.leader) :
    demoteL ((recomputeNonempty s).lastStableGaps dn) =
      gapLeaderVal s ((rankOrder s).headD "") dn := by
  rw [recomputeNonempty_lastStableGaps]
  dsimp only
  have hnew : gapsToLeaderNew s dn =
      some (gapLeaderVal s ((rankOrder s).headD "") dn) := by
    unfold gapsToLeaderNew
    rw [if_pos hm]
  rw [hnew]
  dsimp only
  rw [if_neg hne]
  exact demoteL_some_of_ne _ hne

/-- Demoting the refreshed ahead cache of a non-first ranked driver gives back
exactly its freshly committed ahead-gap value. -/
theorem demoteL_cacheAhead_idem (s : GapState) (dn : String)
    (hm : dn ∈ rankOrder s) (hi : (rankOrder s).indexOf dn ≠ 0) :
    demoteL ((recomputeNonempty s).lastStableGapsAhead dn) =
      gapAheadVal s
        ((rankOrder s).getD ((rankOrder s).indexOf dn - 1) "") dn := by
  rw [recomputeNonempty_lastStableGapsAhead]
  dsimp only
  have hnew : gapsToAheadNew s dn =
      some (gapAheadVal s
        ((rankOrder s).getD ((rankOrder s).indexOf dn - 1) "") dn) := by
    unfold gapsToAheadNew
    rw [if_pos hm, if_neg hi]
  rw [hnew]
  dsimp only
  rw [if_neg (gapAheadVal_ne_leader _ _ _)]
  exact demoteL_some_of_ne _ (gapAheadVal_ne_leader _ _ _)

/-- Recomputing on the freshly committed state yields the same gap-to-leader
value for every ranked driver. -/
theorem gapLeaderVal_idem (s : GapState) (dn : String)
    (hm : dn ∈ rankOrder s) :
    gapLeaderVal (recomputeNonempty s) ((rankOrder s).headD "") dn =
      gapLeaderVal s ((rankOrder s).headD "") dn := by
  by_cases h1 : dn = (rankOrder s).headD ""
  · unfold gapLeaderVal
    rw [if_pos h1, if_pos h1]
  · unfold gapLeaderVal
    rw [if_neg h1, if_neg h1]
    dsimp only
    rw [recomputeNonempty_miniSeqTimes]
    by_cases h2 : s.miniSeqTimes dn = []
    · rw [if_pos h2, if_pos h2]
      have hval : gapLeaderVal s ((rankOrder s).headD "") dn =
          demoteL (s.lastStableGaps dn) := by
        unfold gapLeaderVal
        rw [if_neg h1]
        dsimp only
        rw [if_pos h2]
      refine (demoteL_cache_idem s dn hm ?_).trans hval
      rw [hval]
      exact demoteL_ne_leader _
    · rw [if_neg h2, if_neg h2]
      by_cases h3 : (s.miniSeqTimes dn).length - 1 <
          (s.miniSeqTimes ((rankOrder s).headD "")).length
      · rw [if_pos h3, if_pos h3]
      · rw [if_neg h3, if_neg h3]
        have hval : gapLeaderVal s ((rankOrder s).headD "") dn =
            demoteL (s.lastStableGaps dn) := by
          unfold gapLeaderVal
          rw [if_neg h1]
          dsimp only
          rw [if_neg h2, if_neg h3]
        refine (demoteL_cache_idem s dn hm ?_).trans hval
        rw [hval]
        exact demoteL_ne_leader _

/-- Recomputing on the freshly committed state yields the same gap-to-ahead
value for every non-first ranked driver. -/
theorem gapAheadVal_idem (s : GapState) (dn : String)
    (hm : dn ∈ rankOrder s) (hi : (rankOrder s).indexOf dn ≠ 0) :
    gapAheadVal (recomputeNonempty s)
        ((rankOrder s).getD ((rankOrder s).indexOf dn - 1) "") dn =
      gapAheadVal s
        ((rankOrder s).getD ((rankOrder s).indexOf dn - 1) "") dn := by
  unfold gapAheadVal
  dsimp only
  rw [recomputeNonempty_miniSeqTimes]
  by_cases h2 : s.miniSeqTimes dn = []
  · rw [if_pos h2, if_pos h2]
    have hval : gapAheadVal s
        ((rankOrder s).getD ((rankOrder s).indexOf dn - 1) "") dn =
        demoteL (s.lastStableGapsAhead dn) := by
      unfold gapAheadVal
      dsimp only
      rw [if_pos h2]
    exact (demoteL_cacheAhead_idem s dn hm hi).trans hval
  · rw [if_neg h2, if_neg h2]
    by_cases h3 : (s.miniSeqTimes dn).length - 1 <
        (s.miniSeqTimes
          ((rankOrder s).getD ((rankOrder s).indexOf dn - 1) "")).length
    · rw [if_pos h3, if_pos h3]
    · rw [if_neg h3, if_neg h3]
      have hval : gapAheadVal s
          ((rankOrder s).getD ((rankOrder s).indexOf dn - 1) "") dn =
          demoteL (s.lastStableGapsAhead dn) := by
        unfold gapAheadVal
        dsimp only
        rw [if_neg h2, if_neg h3]
      exact (demoteL_cacheAhead_idem s dn hm hi).trans hval

/-- C7: running the Gap Engine twice in succession on the same inputs (same
`raceTime`, no new crossings) produces the same gap-to-leader map,
gap-to-ahead map and current leader as running it once, even though the first
run rewrites the last-stable caches the second run reads as fallbacks. -/
theorem gap_engine_idempotent (s : GapState) :
    (recomputeGapsSFandMinisectors
        (recomputeGapsSFandMinisectors s)).gapsToLeader =
      (recomputeGapsSFandMinisectors s).gapsToLeader ∧
    (recomputeGapsSFandMinisectors
        (recomputeGapsSFandMinisectors s)).gapsToAhead =
      (recomputeGapsSFandMinisectors s).gapsToAhead ∧
    (recomputeGapsSFandMinisectors
        (recomputeGapsSFandMinisectors s)).currentLeader =
      (recomputeGapsSFandMinisectors s).currentLeader := by
  by_cases hc : cands s = []
  · have h1 : recomputeGapsSFandMinisectors s = recomputeEmpty s :=
      recompute_eq_empty s hc
    have hc1 : cands (recomputeGapsSFandMinisectors s) = [] := by
      rw [h1]; exact hc
    rw [recompute_eq_empty _ hc1, h1]
    exact ⟨rfl, rfl, rfl⟩
  · have h1 : recomputeGapsSFandMinisectors s = recomputeNonempty s :=
      recompute_eq_nonempty s hc
    have hc1 : cands (recomputeGapsSFandMinisectors s) ≠ [] := by
      rw [h1]; exact hc
    rw [recompute_eq_nonempty _ hc1, h1]
    have horder : rankOrder (recomputeNonempty s) = rankOrder s := rfl
    refine ⟨?_, ?_, ?_⟩
    · funext dn
      show gapsToLeaderNew (recomputeNonempty s) dn = gapsToLeaderNew s dn
      unfold gapsToLeaderNew
      rw [horder]
      by_cases hm : dn ∈ rankOrder s
      · rw [if_pos hm, if_pos hm]
        exact congrArg some (gapLeaderVal_idem s dn hm)
      · rw [if_neg hm, if_neg hm]
    · funext dn
      show gapsToAheadNew (recomputeNonempty s) dn = gapsToAheadNew s dn
      unfold gapsToAheadNew
      rw [horder]
      by_cases hm : dn ∈ rankOrder s
      · rw [if_pos hm, if_pos hm]
        refine congrArg some ?_
        by_cases hi : (rankOrder s).indexOf dn = 0
        · rw [if_pos hi, if_pos hi]
        · rw [if_neg hi, if_neg hi]
          exact gapAheadVal_idem s dn hm hi
      · rw [if_neg hm, if_neg hm]
    · show some ((rankOrder (recomputeNonempty s)).headD "") =
        some ((rankOrder s).headD "")
      rw [horder]

end F1Replay
